import Mathlib

/-!
Verification of the core subsystems of the ikc-bulk-guru repository:
the authenticated CPD client (token manager, connection pool, request
executor in cpd_client.py) and the data-quality job execution engine
(job runner, batch scheduler, status tally in run_dq_rules.py).

Timestamps are modelled as natural numbers of Unix seconds; the Python
code reads float seconds, and every property below only compares times
against whole-second intervals, so the integer model is faithful.
Locks make the mutating operations atomic in the Python code; the
embedding reflects this by applying each operation as one sequential
step.
-/

namespace Guru

/-- TokenInfo from cpd_client.py: token string, creation timestamp and the
timestamp of the last authentication failure.  The lock field is omitted:
the embedding is sequential. -/
structure TokenInfo where
  token : String
  created_at : Nat
  last_auth_failure : Option Nat
deriving DecidableEq

/-- TokenInfo.should_refresh_on_time: the token age in hours is at least
max_age_hours.  Integer division by 3600 agrees with the float comparison
of the source for whole-second clocks. -/
def TokenInfo.should_refresh_on_time (ti : TokenInfo) (maxAgeHours now : Nat) : Bool :=
  maxAgeHours ≤ (now - ti.created_at) / 3600

/-- TokenInfo.mark_auth_failure: record the current time as the last
authentication failure. -/
def TokenInfo.mark_auth_failure (ti : TokenInfo) (now : Nat) : TokenInfo :=
  { ti with last_auth_failure := some now }

/-- TokenInfo.should_refresh_on_failure: true when no failure is recorded,
or at least min_retry_interval (default 60) seconds have passed since the
recorded failure. -/
def TokenInfo.should_refresh_on_failure (ti : TokenInfo) (now : Nat)
    (minRetryInterval : Nat := 60) : Bool :=
  match ti.last_auth_failure with
  | none => true
  | some t => minRetryInterval ≤ now - t

/-- Outcome of one POST to the identity endpoint /icp4d-api/v1/authorize. -/
inductive RefreshOutcome
  | ok (token : String)
  | httpErr
  | netErr
deriving DecidableEq

/-- The ConnectionError values raised by the client.  Both are the same
Python exception class; the message distinguishes them and the spec names
the second one RecentRefreshFailed. -/
inductive AuthErr
  | connectionError
  | recentRefreshFailed
deriving DecidableEq

/-- CPDClient._refresh_token.  Returns the new token info on success
together with the number of network calls made to the identity endpoint
(0 when the double-check pattern skips the refresh).  The double-check
only consults should_refresh_on_time. -/
def refresh_token (st : Option TokenInfo) (maxAgeHours now : Nat)
    (env : RefreshOutcome) : Except AuthErr TokenInfo × Nat :=
  match st with
  | some ti =>
    if ¬ ti.should_refresh_on_time maxAgeHours now then
      (.ok ti, 0)
    else
      match env with
      | .ok tok => (.ok { token := tok, created_at := now, last_auth_failure := none }, 1)
      | .httpErr => (.error .connectionError, 1)
      | .netErr => (.error .connectionError, 1)
  | none =>
    match env with
    | .ok tok => (.ok { token := tok, created_at := now, last_auth_failure := none }, 1)
    | .httpErr => (.error .connectionError, 1)
    | .netErr => (.error .connectionError, 1)

/-- CPDClient._handle_auth_failure.  Marks the failure at time tMark, then
consults should_refresh_on_failure at time tCheck; a refresh, when taken,
runs at time tRefresh.  Returns the resulting token state (or the raised
error) and the number of identity-endpoint network calls. -/
def handle_auth_failure (st : Option TokenInfo) (maxAgeHours : Nat)
    (tMark tCheck tRefresh : Nat) (env : RefreshOutcome) :
    Except AuthErr TokenInfo × Nat :=
  match st with
  | none => refresh_token none maxAgeHours tRefresh env
  | some ti =>
    let ti := ti.mark_auth_failure tMark
    if ti.should_refresh_on_failure tCheck then
      refresh_token (some ti) maxAgeHours tRefresh env
    else
      (.error .recentRefreshFailed, 0)

/-- CPDClient._get_current_token: refresh when absent, then refresh when
age-stale, then return the token. -/
def get_current_token (st : Option TokenInfo) (maxAgeHours t : Nat)
    (env : RefreshOutcome) : Except AuthErr (String × TokenInfo) × Nat :=
  match st with
  | none =>
    (match refresh_token none maxAgeHours t env with
     | (.error e, n) => (.error e, n)
     | (.ok ti1, n) =>
       if ti1.should_refresh_on_time maxAgeHours t then
         match refresh_token (some ti1) maxAgeHours t env with
         | (.error e, n2) => (.error e, n + n2)
         | (.ok ti2, n2) => (.ok (ti2.token, ti2), n + n2)
       else (.ok (ti1.token, ti1), n))
  | some ti1 =>
    if ti1.should_refresh_on_time maxAgeHours t then
      match refresh_token (some ti1) maxAgeHours t env with
      | (.error e, n2) => (.error e, n2)
      | (.ok ti2, n2) => (.ok (ti2.token, ti2), n2)
    else (.ok (ti1.token, ti1), 0)

/-- Result of CPDClient.request: the status returned to the caller, how
many requests went to the service endpoint, how many to the identity
endpoint, and the client token state afterwards. -/
structure ReqResult where
  status : Nat
  serviceCalls : Nat
  identityCalls : Nat
  tokenInfo : Option TokenInfo
deriving DecidableEq

/-- CPDClient.request.  The first service response has status resp1; a
retried call (only after a 401 and a successful handle_auth_failure) has
status resp2.  env0 governs the identity endpoint during the initial
token fetch inside get_session, env1 during the failure handling, env2
during the token fetch before the retry.  A single timestamp t models the
clock readings inside the call. -/
def request (st : Option TokenInfo) (maxAgeHours t : Nat)
    (resp1 resp2 : Nat) (env0 env1 env2 : RefreshOutcome) :
    Except AuthErr ReqResult :=
  match get_current_token st maxAgeHours t env0 with
  | (.error e, _) => .error e
  | (.ok (_, ti0), n0) =>
    if resp1 ≠ 401 then
      .ok ⟨resp1, 1, n0, some ti0⟩
    else
      match handle_auth_failure (some ti0) maxAgeHours t t t env1 with
      | (.error _, n1) =>
        .ok ⟨resp1, 1, n0 + n1, some (ti0.mark_auth_failure t)⟩
      | (.ok ti1, n1) =>
        match get_current_token (some ti1) maxAgeHours t env2 with
        | (.error e, _) => .error e
        | (.ok (_, ti2), n2) => .ok ⟨resp2, 2, n0 + n1 + n2, some ti2⟩

/-- Claim C1.  With an existing token that carries no stale age, a first
response of 401 and an identity endpoint that would happily return a new
token, CPDClient.request performs no token refresh and no retry: the
handler marks the failure and then immediately trips its own 60-second
rate limit (0 seconds have elapsed since the failure it just marked), so
the original 401 is returned after exactly one service call and zero
identity calls.  This contradicts the claim that the executor attempts
one refresh and, on success, retries the call once. -/
theorem request_401_never_refreshes :
    request (some ⟨"tok0", 0, none⟩) 23 100 401 200
        (.ok "new") (.ok "new") (.ok "new")
      = .ok ⟨401, 1, 0, some ⟨"tok0", 0, some 100⟩⟩ := by
  rfl

/-- Claim C8.  A refresh attempted within 60 seconds of a marked
authentication failure is skipped: handle_auth_failure raises the
RecentRefreshFailed error and issues zero identity-endpoint calls; and
the in-flight request is not retried further by the executor — request
returns the original 401 after a single service call. -/
theorem refresh_rate_limited_no_network_call
    (ti : TokenInfo) (maxAge tMark tCheck tRefresh : Nat) (env : RefreshOutcome)
    (hrecent : tCheck < tMark + 60)
    (tnow resp2 : Nat) (env0 env2 : RefreshOutcome)
    (hfresh : ti.should_refresh_on_time maxAge tnow = false) :
    handle_auth_failure (some ti) maxAge tMark tCheck tRefresh env
      = (.error .recentRefreshFailed, 0)
    ∧ request (some ti) maxAge tnow 401 resp2 env0 env env2
      = .ok ⟨401, 1, 0, some (ti.mark_auth_failure tnow)⟩ := by
  have hmark : (ti.mark_auth_failure tMark).should_refresh_on_failure tCheck = false := by
    simp only [TokenInfo.mark_auth_failure, TokenInfo.should_refresh_on_failure]
    simp only [decide_eq_false_iff_not]
    omega
  have hmark2 : (ti.mark_auth_failure tnow).should_refresh_on_failure tnow = false := by
    simp only [TokenInfo.mark_auth_failure, TokenInfo.should_refresh_on_failure]
    simp only [decide_eq_false_iff_not]
    omega
  constructor
  · simp [handle_auth_failure, hmark]
  · simp [request, get_current_token, hfresh, handle_auth_failure, hmark2]

/-- Witness for refresh_rate_limited_no_network_call at a concrete state:
token created at 0, failure marked at 100, checked at 130 (30 s later,
inside the 60 s window), current clock 50 with a 23-hour age limit. -/
theorem refresh_rate_limited_no_network_call_witness :
    handle_auth_failure (some ⟨"tok", 0, none⟩) 23 100 130 130 (.ok "n")
      = (.error .recentRefreshFailed, 0)
    ∧ request (some ⟨"tok", 0, none⟩) 23 50 401 200 (.ok "n") (.ok "n") (.ok "n")
      = .ok ⟨401, 1, 0, some (TokenInfo.mark_auth_failure ⟨"tok", 0, none⟩ 50)⟩ :=
  refresh_rate_limited_no_network_call ⟨"tok", 0, none⟩ 23 100 130 130 (.ok "n")
    (by decide) 50 200 (.ok "n") (.ok "n") (by decide)

/-- Claim C10.  A refresh that actually runs and succeeds replaces the
credential as a whole: the token string and created_at are both updated
and last_auth_failure is reset to none, no matter what the previous state
was; and the fresh credential reopens the failure-triggered-refresh gate
(should_refresh_on_failure is true at every later time and for every
interval). -/
theorem refresh_success_replaces_whole_credential (maxAge now : Nat) (tok : String)
    (ti : TokenInfo) (hstale : ti.should_refresh_on_time maxAge now = true) :
    refresh_token (some ti) maxAge now (.ok tok)
      = (.ok { token := tok, created_at := now, last_auth_failure := none }, 1)
    ∧ refresh_token none maxAge now (.ok tok)
      = (.ok { token := tok, created_at := now, last_auth_failure := none }, 1)
    ∧ (∀ t2 minRetry, TokenInfo.should_refresh_on_failure
        { token := tok, created_at := now, last_auth_failure := none } t2 minRetry = true) := by
  refine ⟨?_, ?_, ?_⟩
  · simp [refresh_token, hstale]
  · simp [refresh_token]
  · intro t2 minRetry
    simp [TokenInfo.should_refresh_on_failure]

/-- Witness for refresh_success_replaces_whole_credential: a token created
at time 0 is stale at time 90000 under a 23-hour limit. -/
theorem refresh_success_replaces_whole_credential_witness :
    refresh_token (some ⟨"old", 0, some 5⟩) 23 90000 (.ok "fresh")
      = (.ok { token := "fresh", created_at := 90000, last_auth_failure := none }, 1)
    ∧ refresh_token none 23 90000 (.ok "fresh")
      = (.ok { token := "fresh", created_at := 90000, last_auth_failure := none }, 1)
    ∧ (∀ t2 minRetry, TokenInfo.should_refresh_on_failure
        { token := "fresh", created_at := 90000, last_auth_failure := none } t2 minRetry = true) :=
  refresh_success_replaces_whole_credential 23 90000 "fresh" ⟨"old", 0, some 5⟩ (by decide)

/-! ## Connection pool (cpd_client.py: _session_pool, get_session, close) -/

/-- Connection-pool state: sessions idle in the queue, the value of the
_sessions_created counter, and the number of sessions handed out and not
yet given back (acquired minus released — a ghost quantity for the
invariant). -/
structure PoolState where
  inPool : Nat
  created : Nat
  outstanding : Nat
deriving DecidableEq

/-- One scheduling event against the pool, as performed by get_session and
its finally block.  acquireHit is a successful get_nowait; acquireNew is
the create-on-miss branch guarded by sessions_created < pool_size;
acquireWaitGot is a blocking get that obtains a session another thread
released; acquireWaitTimeout is a blocking get that gives up (queue.Empty
propagates, no session handed out); release is the finally block, which
returns the session when the queue has room and closes it otherwise. -/
inductive PoolEvent
  | acquireHit
  | acquireNew
  | acquireWaitGot
  | acquireWaitTimeout
  | release
deriving DecidableEq

/-- Effect of one pool event; none when the preconditions of the event do
not hold in the given state. -/
def stepPool (cap : Nat) (s : PoolState) : PoolEvent → Option PoolState
  | .acquireHit =>
    if 1 ≤ s.inPool then some ⟨s.inPool - 1, s.created, s.outstanding + 1⟩ else none
  | .acquireNew =>
    if s.created < cap then
      some ⟨s.inPool, s.created + 1, s.outstanding + 1⟩
    else none
  | .acquireWaitGot =>
    if 1 ≤ s.inPool then some ⟨s.inPool - 1, s.created, s.outstanding + 1⟩ else none
  | .acquireWaitTimeout => some s
  | .release =>
    if 1 ≤ s.outstanding then
      if s.inPool < cap then some ⟨s.inPool + 1, s.created, s.outstanding - 1⟩
      else some ⟨s.inPool, s.created, s.outstanding - 1⟩
    else none

/-- CPDClient.__init__: the pool starts with min(10, pool_size) created
sessions, all idle. -/
def initPool (cap : Nat) : PoolState := ⟨min 10 cap, min 10 cap, 0⟩

/-- Run a sequence of pool events from a given state. -/
def runPoolFrom (cap : Nat) (s : PoolState) : List PoolEvent → Option PoolState
  | [] => some s
  | e :: es =>
    match stepPool cap s e with
    | none => none
    | some s2 => runPoolFrom cap s2 es

/-- Run a sequence of pool events from the freshly initialised pool. -/
def runPool (cap : Nat) (evs : List PoolEvent) : Option PoolState :=
  runPoolFrom cap (initPool cap) evs

/-- The branch get_session takes when acquiring: reuse an idle session,
create a new one (pool empty, creation counter below capacity), or fall
through to the blocking wait. -/
inductive AcquireBranch
  | reuse
  | createNew
  | waitBranch
deriving DecidableEq

/-- The acquisition decision of get_session in a given pool state. -/
def acquireBranch (cap : Nat) (s : PoolState) : AcquireBranch :=
  if 1 ≤ s.inPool then .reuse
  else if s.created < cap then .createNew
  else .waitBranch

/-- The inductive invariant of the pool: idle plus outstanding sessions
never exceed the creation counter, which never exceeds capacity. -/
def PoolInv (cap : Nat) (s : PoolState) : Prop :=
  s.outstanding + s.inPool ≤ s.created ∧ s.created ≤ cap

theorem stepPool_inv {cap : Nat} {s s2 : PoolState} {e : PoolEvent}
    (hinv : PoolInv cap s) (h : stepPool cap s e = some s2) : PoolInv cap s2 := by
  obtain ⟨h1, h2⟩ := hinv
  cases e <;> simp only [stepPool] at h
  · split at h
    · cases h; constructor <;> simp <;> omega
    · exact absurd h (by simp)
  · split at h
    · cases h; constructor <;> simp <;> omega
    · exact absurd h (by simp)
  · split at h
    · cases h; constructor <;> simp <;> omega
    · exact absurd h (by simp)
  · cases h; exact ⟨h1, h2⟩
  · split at h
    · split at h <;> (cases h; constructor <;> simp <;> omega)
    · exact absurd h (by simp)

theorem runPoolFrom_inv {cap : Nat} {evs : List PoolEvent} {s s2 : PoolState}
    (hinv : PoolInv cap s) (h : runPoolFrom cap s evs = some s2) : PoolInv cap s2 := by
  induction evs generalizing s with
  | nil => simp only [runPoolFrom] at h; cases h; exact hinv
  | cons e es ih =>
    simp only [runPoolFrom] at h
    cases hstep : stepPool cap s e with
    | none => rw [hstep] at h; cases h
    | some smid =>
      rw [hstep] at h
      exact ih (stepPool_inv hinv hstep) h

/-- Claim C6.  Along every interleaving of acquisitions and releases that
the pool admits, the number of outstanding connections never exceeds the
capacity fixed at construction, and the creation counter never grows
beyond it; moreover get_session creates a new connection exactly when the
pool is empty and the capacity has not been reached, and otherwise (pool
empty, capacity reached) falls through to the bounded blocking wait. -/
theorem pool_capacity_invariant (cap : Nat) (evs : List PoolEvent) (s : PoolState)
    (h : runPool cap evs = some s) :
    s.outstanding ≤ cap ∧ s.created ≤ cap
    ∧ (s.inPool = 0 → s.created < cap → acquireBranch cap s = .createNew)
    ∧ (s.inPool = 0 → cap ≤ s.created → acquireBranch cap s = .waitBranch) := by
  have hinit : PoolInv cap (initPool cap) := by
    constructor <;> simp [initPool]
  have hinv := runPoolFrom_inv hinit h
  obtain ⟨h1, h2⟩ := hinv
  refine ⟨by omega, h2, ?_, ?_⟩
  · intro hp hc
    simp [acquireBranch, hp, hc]
  · intro hp hc
    simp [acquireBranch, hp]
    omega

/-- Witness for pool_capacity_invariant: capacity 2, two acquisitions that
drain the pool followed by one release. -/
theorem pool_capacity_invariant_witness :
    (PoolState.mk 1 2 1).outstanding ≤ 2 ∧ (PoolState.mk 1 2 1).created ≤ 2
    ∧ ((PoolState.mk 1 2 1).inPool = 0 → (PoolState.mk 1 2 1).created < 2 →
        acquireBranch 2 ⟨1, 2, 1⟩ = .createNew)
    ∧ ((PoolState.mk 1 2 1).inPool = 0 → 2 ≤ (PoolState.mk 1 2 1).created →
        acquireBranch 2 ⟨1, 2, 1⟩ = .waitBranch) :=
  pool_capacity_invariant 2 [.acquireHit, .acquireHit, .release] ⟨1, 2, 1⟩ (by rfl)

/-! ## get_session as a context manager (claim C7) -/

/-- A pooled requests.Session, reduced to the header state the claims
mention: whether the per-call Authorization header is currently set. -/
structure Session where
  hasAuthHeader : Bool
deriving DecidableEq

/-- What the finally block of get_session did with the session. -/
inductive ReleaseAction
  | returnedToPool
  | closedAsFull
  | notAcquired
deriving DecidableEq

/-- Outcome of the caller body that runs while it holds the session. -/
inductive BodyOutcome
  | ok
  | exn
deriving DecidableEq

/-- One full pass through the get_session context manager. -/
structure CtxResult where
  yielded : Bool
  sessionAuthAtRelease : Option Bool
  releaseAction : ReleaseAction
  raised : Bool
deriving DecidableEq

/-- The acquisition phase of get_session: get_nowait, else create below
capacity, else block; waitGot tells whether the blocking get obtained a
session before its timeout. -/
def acquireSession (cap inPoolAtAcquire created : Nat) (waitGot : Bool) :
    Option Session :=
  if 1 ≤ inPoolAtAcquire then some ⟨false⟩
  else if created < cap then some ⟨false⟩
  else if waitGot then some ⟨false⟩ else none

/-- The finally block of get_session: pop the Authorization header, then
put_nowait back into the queue, closing the session when the queue is
full.  inPoolAtRelease is the queue length at release time. -/
def releaseSession (cap inPoolAtRelease : Nat) (sess : Session) :
    Session × ReleaseAction :=
  let sess2 : Session := { sess with hasAuthHeader := false }
  if inPoolAtRelease < cap then (sess2, .returnedToPool)
  else (sess2, .closedAsFull)

/-- One run of the get_session context manager: acquire; fetch the token
(tokenOk false models _get_current_token raising); set the Authorization
header; yield to the body; and in every case run the finally block on the
acquired session. -/
def get_session_run (cap inPoolAtAcquire created : Nat) (waitGot : Bool)
    (tokenOk : Bool) (body : BodyOutcome) (inPoolAtRelease : Nat) : CtxResult :=
  match acquireSession cap inPoolAtAcquire created waitGot with
  | none => ⟨false, none, .notAcquired, true⟩
  | some sess =>
    if tokenOk then
      let sess1 : Session := { sess with hasAuthHeader := true }
      let rel := releaseSession cap inPoolAtRelease sess1
      ⟨true, some rel.1.hasAuthHeader, rel.2, body = BodyOutcome.exn⟩
    else
      let rel := releaseSession cap inPoolAtRelease sess
      ⟨false, some rel.1.hasAuthHeader, rel.2, true⟩

theorem releaseSession_fst (cap n : Nat) (sess : Session) :
    (releaseSession cap n sess).1 = ⟨false⟩ := by
  unfold releaseSession
  split <;> rfl

theorem releaseSession_snd (cap n : Nat) (sess : Session) :
    (releaseSession cap n sess).2
      = if n < cap then ReleaseAction.returnedToPool else ReleaseAction.closedAsFull := by
  unfold releaseSession
  split <;> simp_all

/-- Claim C7.  Whenever get_session acquired a session — whether the body
succeeded, the body raised, or the token fetch itself raised — the exit
path releases it: the Authorization header is cleared, and the session is
returned to the pool when the queue is under capacity and closed
otherwise. -/
theorem get_session_releases_on_every_path
    (cap inPoolAtAcquire created inPoolAtRelease : Nat) (waitGot tokenOk : Bool)
    (body : BodyOutcome)
    (hacq : 1 ≤ inPoolAtAcquire ∨ created < cap ∨ waitGot = true) :
    (get_session_run cap inPoolAtAcquire created waitGot tokenOk body
        inPoolAtRelease).sessionAuthAtRelease = some false
    ∧ (inPoolAtRelease < cap →
        (get_session_run cap inPoolAtAcquire created waitGot tokenOk body
          inPoolAtRelease).releaseAction = .returnedToPool)
    ∧ (cap ≤ inPoolAtRelease →
        (get_session_run cap inPoolAtAcquire created waitGot tokenOk body
          inPoolAtRelease).releaseAction = .closedAsFull) := by
  have hsess : acquireSession cap inPoolAtAcquire created waitGot = some ⟨false⟩ := by
    unfold acquireSession
    rcases hacq with h | h | h
    · simp [h]
    · by_cases h1 : 1 ≤ inPoolAtAcquire
      · simp [h1]
      · simp [h1, h]
    · by_cases h1 : 1 ≤ inPoolAtAcquire
      · simp [h1]
      · by_cases h2 : created < cap
        · simp [h1, h2]
        · simp [h1, h2, h]
  refine ⟨?_, ?_, ?_⟩
  · cases tokenOk <;>
      simp [get_session_run, hsess, releaseSession_fst]
  · intro hlt
    cases tokenOk <;>
      simp [get_session_run, hsess, releaseSession_snd, hlt]
  · intro hge
    have hlt : ¬ inPoolAtRelease < cap := by omega
    cases tokenOk <;>
      simp [get_session_run, hsess, releaseSession_snd, hlt]

/-- Witness for get_session_releases_on_every_path: capacity 50, a session
acquired from a pool of 3 idle sessions, token fetch fine, body raising,
9 idle sessions at release time. -/
theorem get_session_releases_on_every_path_witness :
    (get_session_run 50 3 10 false true BodyOutcome.exn 9).sessionAuthAtRelease
        = some false
    ∧ ((9 : Nat) < 50 →
        (get_session_run 50 3 10 false true BodyOutcome.exn 9).releaseAction
          = .returnedToPool)
    ∧ ((50 : Nat) ≤ 9 →
        (get_session_run 50 3 10 false true BodyOutcome.exn 9).releaseAction
          = .closedAsFull) :=
  get_session_releases_on_every_path 50 3 10 9 false true BodyOutcome.exn
    (Or.inl (by decide))

/-! ## close and subsequent acquisition (claim C9) -/

/-- CPDClient.close: drain the queue and close every pooled session.  The
creation counter is untouched and no closed flag exists on the client. -/
def closePool (s : PoolState) : PoolState := ⟨0, s.created, s.outstanding⟩

/-- Counterexample to claim C9.  After close on the freshly initialised
pool of capacity 50 (10 sessions created), the next get_session does not
fail with a Closed error: the creation counter (10) is below capacity, so
the acquire takes the create-new branch and hands out a brand-new
session. -/
theorem close_then_acquire_succeeds :
    acquireBranch 50 (closePool (initPool 50)) = .createNew
    ∧ stepPool 50 (closePool (initPool 50)) .acquireNew = some ⟨0, 11, 1⟩ := by
  constructor <;> rfl

/-- Claim C9 as amended.  close empties the pool but sets no closed flag:
a subsequent acquire creates a fresh connection whenever the creation
counter is below capacity, and otherwise enters the blocking wait, which
cannot be satisfied from the drained pool (no concurrent release), so it
can only time out with queue.Empty — never a Closed error. -/
theorem close_then_acquire (cap : Nat) (s : PoolState) :
    (closePool s).inPool = 0
    ∧ ((closePool s).created < cap → acquireBranch cap (closePool s) = .createNew)
    ∧ (cap ≤ (closePool s).created →
        acquireBranch cap (closePool s) = .waitBranch
        ∧ stepPool cap (closePool s) .acquireWaitGot = none
        ∧ stepPool cap (closePool s) .acquireWaitTimeout = some (closePool s)) := by
  refine ⟨rfl, ?_, ?_⟩
  · intro hc
    unfold acquireBranch
    rw [if_neg (by simp [closePool]), if_pos hc]
  · intro hc
    refine ⟨?_, rfl, rfl⟩
    unfold acquireBranch
    rw [if_neg (by simp [closePool]), if_neg (by omega)]

/-- Witness for close_then_acquire at capacity 5 with a state whose
creation counter has reached capacity. -/
theorem close_then_acquire_witness :
    acquireBranch 5 (closePool ⟨2, 5, 3⟩) = .waitBranch
    ∧ stepPool 5 (closePool ⟨2, 5, 3⟩) .acquireWaitGot = none
    ∧ stepPool 5 (closePool ⟨2, 5, 3⟩) .acquireWaitTimeout = some (closePool ⟨2, 5, 3⟩) :=
  (close_then_acquire 5 ⟨2, 5, 3⟩).2.2 (by decide)

/-! ## Job runner poll loop (run_dq_rules.py: process_job monitor section) -/

/-- The terminal states of a job run (final_states in process_job). -/
def isFinalState (s : String) : Bool :=
  s == "Completed" || s == "Failed" || s == "Canceled"
    || s == "CompletedWithErrors" || s == "CompletedWithWarnings"

/-- The states that count as success in process_job. -/
def isSuccessState (s : String) : Bool :=
  s == "Completed" || s == "CompletedWithWarnings"

/-- Outcome of one get_job_run_info call: a successful read of the run
state, an HTTP-level failure (success False in the returned dict), or a
raised exception. -/
inductive PollOutcome
  | ok (state : String)
  | httpErr
  | exn
deriving DecidableEq

/-- The monitor while-loop of process_job.  Each trace entry supplies the
clock reading for the timeout check at the top of the iteration and the
outcome of the get_job_run_info call of that iteration.  cf is the
consecutive_failures counter.  After the third consecutive failure, one
final get_job_run_info attempt consumes the next trace entry and the loop
breaks with its state on success and with MonitorError otherwise.  The
loop variable state is overwritten on every break path, so it is not
carried here.  An exhausted trace (a run that never terminates is not
representable) yields none. -/
def monitorLoop (jobTimeout startTime : Nat) :
    Nat → List (Nat × PollOutcome) → Option String
  | _, [] => none
  | cf, (now, o) :: rest =>
    if jobTimeout < now - startTime then some "Timeout"
    else
      match o with
      | .ok s =>
        if isFinalState s then some s
        else monitorLoop jobTimeout startTime 0 rest
      | .httpErr =>
        if 3 ≤ cf + 1 then
          match rest with
          | [] => none
          | (_, o2) :: _ =>
            match o2 with
            | .ok s2 => some s2
            | .httpErr => some "MonitorError"
            | .exn => some "MonitorError"
        else monitorLoop jobTimeout startTime (cf + 1) rest
      | .exn => some "MonitorError"

/-- Final state and success flag of the poll phase of process_job. -/
structure PollResult where
  finalState : String
  success : Bool
deriving DecidableEq

/-- The poll phase of process_job: run the monitor loop, then compute the
job_succeeded flag from the final state. -/
def processJobPoll (jobTimeout startTime : Nat) (trace : List (Nat × PollOutcome)) :
    Option PollResult :=
  match monitorLoop jobTimeout startTime 0 trace with
  | none => none
  | some st => some ⟨st, isSuccessState st⟩

theorem monitorLoop_timeout (jobTimeout startTime : Nat) (cf : Nat)
    (trace : List (Nat × PollOutcome))
    (hok : ∀ p ∈ trace, ∃ s, p.2 = PollOutcome.ok s ∧ isFinalState s = false)
    (hlate : ∃ p ∈ trace, startTime + jobTimeout < p.1) :
    monitorLoop jobTimeout startTime cf trace = some "Timeout" := by
  induction trace generalizing cf with
  | nil => simp at hlate
  | cons p rest ih =>
    obtain ⟨now, o⟩ := p
    obtain ⟨s, hs, hsfin⟩ := hok ⟨now, o⟩ (by simp)
    simp only at hs
    subst hs
    by_cases htime : jobTimeout < now - startTime
    · simp [monitorLoop, htime]
    · have hrest : ∃ p ∈ rest, startTime + jobTimeout < p.1 := by
        rcases hlate with ⟨q, hq, hqlate⟩
        rcases List.mem_cons.mp hq with hq | hq
        · subst hq; simp only at hqlate; omega
        · exact ⟨q, hq, hqlate⟩
      simp only [monitorLoop, if_neg htime, hsfin, Bool.false_eq_true, if_false]
      exact ih 0 (fun q hq => hok q (List.mem_cons_of_mem _ hq)) hrest

/-- Claim C3.  First, on every finite poll trace the success flag of the
poll-phase result is true exactly when the final state is Completed or
CompletedWithWarnings.  Second, if every poll returns a successful,
non-terminal run state and the clock eventually passes startTime plus
job_timeout, the loop aborts with final state Timeout and success
false. -/
theorem poll_success_iff_terminal_and_timeout (jobTimeout startTime : Nat) :
    (∀ trace r, processJobPoll jobTimeout startTime trace = some r →
      (r.success = true ↔
        r.finalState = "Completed" ∨ r.finalState = "CompletedWithWarnings"))
    ∧ (∀ trace : List (Nat × PollOutcome),
        (∀ p ∈ trace, ∃ s, p.2 = PollOutcome.ok s ∧ isFinalState s = false) →
        (∃ p ∈ trace, startTime + jobTimeout < p.1) →
        processJobPoll jobTimeout startTime trace = some ⟨"Timeout", false⟩) := by
  constructor
  · intro trace r h
    simp only [processJobPoll] at h
    cases hm : monitorLoop jobTimeout startTime 0 trace with
    | none => rw [hm] at h; cases h
    | some st =>
      rw [hm] at h
      cases h
      simp only [isSuccessState]
      constructor
      · intro hb
        rcases Bool.or_eq_true_iff.mp hb with hb | hb
        · exact Or.inl (by simpa using hb)
        · exact Or.inr (by simpa using hb)
      · rintro (hb | hb) <;> simp [hb]
  · intro trace hok hlate
    simp only [processJobPoll]
    rw [monitorLoop_timeout jobTimeout startTime 0 trace hok hlate]
    rfl

/-- Witness for poll_success_iff_terminal_and_timeout at job_timeout 3600
and start time 0: a trace of three Running polls at times 10, 20 and 4000
times out; and a trace ending in Completed at time 30 yields success. -/
theorem poll_success_iff_terminal_and_timeout_witness :
    processJobPoll 3600 0 [(10, .ok "Running"), (20, .ok "Running"), (4000, .ok "Running")]
      = some ⟨"Timeout", false⟩ :=
  (poll_success_iff_terminal_and_timeout 3600 0).2
    [(10, .ok "Running"), (20, .ok "Running"), (4000, .ok "Running")]
    (by
      intro p hp
      refine ⟨"Running", ?_, by decide⟩
      fin_cases hp <;> rfl)
    ⟨(4000, .ok "Running"), by simp, by decide⟩

/-! ## Job submission with retry (claim C2)

Modelled from the spec: the repository has a second run_dq_rules.py
variant, described by the spec as the target behaviour (design note in
section 9), whose submit path retries transient failures with exponential
backoff plus random jitter up to a bounded attempt count.  That variant
is not among the source files here, so the definitions below follow the
words of the spec (sections 4.4 and 6): retryable means a transport
error or an HTTP status among 429, 502, 503 and 504; attempt k sleeps
base * 2 ^ k plus a jitter sample before attempt k + 1; a non-retryable
failure or an exhausted budget marks SubmitFailed and no poll loop is
entered. -/

/-- Outcome of one job-run submission attempt (POST /v2/jobs/{id}/runs):
HTTP 201 with a run id, another HTTP status, or a transport error. -/
inductive SubmitOutcome
  | created (runId : String)
  | http (code : Nat)
  | transport
deriving DecidableEq

/-- Modelled from the spec: a submit failure is retryable when it is a
transport error or a retryable HTTP status (429/502/503/504). -/
def retryableSubmit : SubmitOutcome → Bool
  | .created _ => false
  | .http code => code == 429 || code == 502 || code == 503 || code == 504
  | .transport => true

/-- Modelled from the spec: bounded submit retry with exponential backoff
plus jitter.  k is the 0-based attempt index; the result is the run id
obtained (none when the submit failed for good) paired with the list of
backoff sleeps performed between attempts. -/
def submitWithRetry (maxAttempts base : Nat) (jitter : Nat → Nat) :
    Nat → List SubmitOutcome → Option String × List Nat
  | _, [] => (none, [])
  | k, o :: rest =>
    match o with
    | .created runId => (some runId, [])
    | o =>
      if retryableSubmit o = true ∧ k + 1 < maxAttempts then
        let w := base * 2 ^ k + jitter k
        let r := submitWithRetry maxAttempts base jitter (k + 1) rest
        (r.1, w :: r.2)
      else (none, [])

/-- The submit phase of the retrying process_job: either the job enters
the poll loop, or it is marked SubmitFailed and no polling happens. -/
structure SubmitPhase where
  finalMark : String
  pollEntered : Bool
  sleeps : List Nat
deriving DecidableEq

/-- Modelled from the spec: the submit phase of process_job in the
retry+jitter variant.  A submit that exhausts its budget or hits a
non-retryable failure marks SubmitFailed and skips the poll loop. -/
def processJobSubmit (maxAttempts base : Nat) (jitter : Nat → Nat)
    (outs : List SubmitOutcome) : SubmitPhase :=
  match submitWithRetry maxAttempts base jitter 0 outs with
  | (none, ws) => ⟨"SubmitFailed", false, ws⟩
  | (some _, ws) => ⟨"Submitted", true, ws⟩

theorem submitWithRetry_all_retryable (maxAttempts base : Nat) (jitter : Nat → Nat)
    (outs : List SubmitOutcome) (k : Nat)
    (hall : ∀ o ∈ outs, retryableSubmit o = true)
    (hlen : maxAttempts ≤ k + outs.length) :
    submitWithRetry maxAttempts base jitter k outs
      = (none, (List.range' k (maxAttempts - 1 - k)).map (fun i => base * 2 ^ i + jitter i)) := by
  induction outs generalizing k with
  | nil =>
    simp only [List.length_nil, Nat.add_zero] at hlen
    have : maxAttempts - 1 - k = 0 := by omega
    simp [submitWithRetry, this]
  | cons o rest ih =>
    have ho : retryableSubmit o = true := hall o (by simp)
    have hrest : ∀ o2 ∈ rest, retryableSubmit o2 = true :=
      fun o2 h2 => hall o2 (List.mem_cons_of_mem _ h2)
    cases o with
    | created runId => simp [retryableSubmit] at ho
    | http code =>
      by_cases hk : k + 1 < maxAttempts
      · have hlen2 : maxAttempts ≤ (k + 1) + rest.length := by
          simp only [List.length_cons] at hlen; omega
        rw [show maxAttempts - 1 - k = (maxAttempts - 1 - (k + 1)) + 1 from by omega,
          List.range'_succ, List.map_cons]
        simp only [submitWithRetry]
        rw [if_pos (And.intro ho hk)]
        simp [ih (k + 1) hrest hlen2]
      · have hrange : maxAttempts - 1 - k = 0 := by omega
        simp only [submitWithRetry, hrange, List.range', List.map_nil]
        rw [if_neg]
        intro hcon
        exact hk hcon.2
    | transport =>
      by_cases hk : k + 1 < maxAttempts
      · have hlen2 : maxAttempts ≤ (k + 1) + rest.length := by
          simp only [List.length_cons] at hlen; omega
        rw [show maxAttempts - 1 - k = (maxAttempts - 1 - (k + 1)) + 1 from by omega,
          List.range'_succ, List.map_cons]
        simp only [submitWithRetry]
        rw [if_pos (And.intro ho hk)]
        simp [ih (k + 1) hrest hlen2]
      · have hrange : maxAttempts - 1 - k = 0 := by omega
        simp only [submitWithRetry, hrange, List.range', List.map_nil]
        rw [if_neg]
        intro hcon
        exact hk hcon.2

/-- Claim C2 (modelled from the spec, see above).  First, when every
available submit response is a retryable failure and at least
maxAttempts of them are offered, the submit phase performs exactly
maxAttempts - 1 backoff sleeps of exponential length plus jitter, ends
marked SubmitFailed, and the poll loop is not entered.  Second, a
non-retryable first failure marks SubmitFailed immediately, with no
backoff sleep and no poll loop. -/
theorem submit_retry_budget_and_no_poll (maxAttempts base : Nat) (jitter : Nat → Nat)
    (outs : List SubmitOutcome)
    (hall : ∀ o ∈ outs, retryableSubmit o = true)
    (hlen : maxAttempts ≤ outs.length)
    (o0 : SubmitOutcome) (rest : List SubmitOutcome)
    (hnr : retryableSubmit o0 = false) (hnc : ∀ r, o0 ≠ SubmitOutcome.created r) :
    processJobSubmit maxAttempts base jitter outs
      = ⟨"SubmitFailed", false,
          (List.range (maxAttempts - 1)).map (fun i => base * 2 ^ i + jitter i)⟩
    ∧ processJobSubmit maxAttempts base jitter (o0 :: rest)
      = ⟨"SubmitFailed", false, []⟩ := by
  constructor
  · have h := submitWithRetry_all_retryable maxAttempts base jitter outs 0 hall
      (by omega)
    simp only [processJobSubmit, h, Nat.sub_zero, List.range_eq_range']
  · cases o0 with
    | created runId => exact absurd rfl (hnc runId)
    | http code =>
      simp only [processJobSubmit, submitWithRetry]
      rw [if_neg]
      intro hcon
      rw [hnr] at hcon
      exact Bool.false_ne_true hcon.1
    | transport => simp [retryableSubmit] at hnr

/-- Witness for submit_retry_budget_and_no_poll: three attempts, base 2,
jitter i = i, a trace of three retryable failures (503, transport, 429),
and a non-retryable 400 first failure. -/
theorem submit_retry_budget_and_no_poll_witness :
    processJobSubmit 3 2 (fun i => i) [.http 503, .transport, .http 429]
      = ⟨"SubmitFailed", false,
          (List.range (3 - 1)).map (fun i => 2 * 2 ^ i + i)⟩
    ∧ processJobSubmit 3 2 (fun i => i) (.http 400 :: [.http 503])
      = ⟨"SubmitFailed", false, []⟩ :=
  submit_retry_budget_and_no_poll 3 2 (fun i => i) [.http 503, .transport, .http 429]
    (by decide) (by decide) (.http 400) [.http 503] (by decide)
    (fun r h => SubmitOutcome.noConfusion h)

/-! ## Batch scheduler (run_dq_rules.py: run_jobs_concurrent) -/

/-- The per-job entry appended to the results list, reduced to the fields
the claim mentions: the job_id key and the success flag. -/
structure JobEntry where
  job_id : String
  success : Bool
deriving DecidableEq

/-- The environment one process_job call runs against: the outcome of its
single run_job submission and the poll trace of its monitor loop. -/
structure JobEnv where
  submit : SubmitOutcome
  trace : List (Nat × PollOutcome)

/-- process_job in the source variant: one submission attempt; a failed
submission returns a SubmitFailed entry without polling; a successful one
runs the monitor loop and computes the success flag from the final state.
Every return path of the source carries the original job_id key. -/
def process_job (jobTimeout startTime : Nat) (j : String) (env : JobEnv) : JobEntry :=
  match env.submit with
  | .created _ =>
    match monitorLoop jobTimeout startTime 0 env.trace with
    | some st => ⟨j, isSuccessState st⟩
    | none => ⟨j, false⟩
  | .http _ => ⟨j, false⟩
  | .transport => ⟨j, false⟩

/-- The placeholder entry appended for a future still outstanding when the
total timeout fires: its job_id key is the literal string cancelled. -/
def cancelledEntry : JobEntry := ⟨"cancelled", false⟩

/-- run_jobs_concurrent, with the thread pool resolved to its observable
accounting: every job whose worker finishes before the total timeout
contributes its process_job result (yielded by as_completed); every job
still outstanding when the total timeout fires contributes one cancelled
placeholder entry. -/
def run_jobs_concurrent (jobTimeout startTime : Nat) (jobs : List String)
    (env : String → JobEnv) (finished : String → Bool) : List JobEntry :=
  (jobs.filter (fun j => finished j)).map
      (fun j => process_job jobTimeout startTime j (env j))
    ++ (jobs.filter (fun j => ! finished j)).map (fun _ => cancelledEntry)

theorem process_job_id (jobTimeout startTime : Nat) (j : String) (env : JobEnv) :
    (process_job jobTimeout startTime j env).job_id = j := by
  unfold process_job
  cases env.submit with
  | created runId =>
    cases monitorLoop jobTimeout startTime 0 env.trace <;> rfl
  | http code => rfl
  | transport => rfl

/-- Counterexample to claim C4.  A batch of one job whose worker is still
outstanding when the total timeout fires: run_jobs_concurrent records one
placeholder entry whose job_id is the literal cancelled, and the
submitted job id job1 appears zero times — not exactly once — in the
per-job results. -/
theorem batch_loses_job_id_on_total_timeout :
    run_jobs_concurrent 3600 0 ["job1"]
        (fun _ => ⟨SubmitOutcome.transport, []⟩) (fun _ => false)
      = [cancelledEntry]
    ∧ ((run_jobs_concurrent 3600 0 ["job1"]
        (fun _ => ⟨SubmitOutcome.transport, []⟩) (fun _ => false)).map
          JobEntry.job_id).count "job1" = 0 := by
  constructor <;> rfl

/-- Claim C4 as amended.  The batch (a total function here, hence always
terminating) returns exactly one result entry per submitted job, and the
failure of one job removes no other job from the accounting; every job
whose worker finishes before the total timeout appears exactly once in
the per-job results under its own job id, while a job still outstanding
at the total timeout is recorded as a cancelled placeholder — counted,
but no longer under its original id. -/
theorem batch_complete_accounting (jobTimeout startTime : Nat) (jobs : List String)
    (env : String → JobEnv) (finished : String → Bool)
    (hnd : jobs.Nodup) (hc : "cancelled" ∉ jobs) :
    (run_jobs_concurrent jobTimeout startTime jobs env finished).length = jobs.length
    ∧ ∀ j ∈ jobs,
        ((run_jobs_concurrent jobTimeout startTime jobs env finished).map
            JobEntry.job_id).count j
          = if finished j then 1 else 0 := by
  have hids : (run_jobs_concurrent jobTimeout startTime jobs env finished).map
      JobEntry.job_id
      = jobs.filter (fun j => finished j)
        ++ (jobs.filter (fun j => ! finished j)).map (fun _ => "cancelled") := by
    simp only [run_jobs_concurrent, List.map_append, List.map_map]
    congr 1
    have hcong : ∀ j ∈ jobs.filter (fun j => finished j),
        (JobEntry.job_id ∘ fun j => process_job jobTimeout startTime j (env j)) j = j :=
      fun j _ => process_job_id jobTimeout startTime j (env j)
    rw [List.map_congr_left hcong, List.map_id']
  constructor
  · simp only [run_jobs_concurrent, List.length_append, List.length_map]
    have := (List.filter_append_perm (fun j => finished j) jobs).length_eq
    simpa using this
  · intro j hj
    have hjnc : j ≠ "cancelled" := fun h => hc (h ▸ hj)
    rw [hids, List.count_append]
    have hc2 : ((jobs.filter (fun j => ! finished j)).map (fun _ => "cancelled")).count j
        = 0 := by
      rw [List.count_eq_zero]
      intro hmem
      rcases List.mem_map.mp hmem with ⟨x, _, hx⟩
      exact hjnc hx.symm
    rw [hc2, Nat.add_zero]
    by_cases hf : finished j
    · rw [if_pos hf]
      have hmem : j ∈ jobs.filter (fun j => finished j) := by
        rw [List.mem_filter]
        exact ⟨hj, by simp [hf]⟩
      exact List.count_eq_one_of_mem (hnd.filter _) hmem
    · rw [if_neg hf]
      rw [List.count_eq_zero]
      intro hmem
      rw [List.mem_filter] at hmem
      exact hf (by simpa using hmem.2)

/-- Witness for batch_complete_accounting: two distinct jobs a and b, a
finishing before the total timeout and b not. -/
theorem batch_complete_accounting_witness :
    (run_jobs_concurrent 3600 0 ["a", "b"]
        (fun _ => ⟨SubmitOutcome.created "r", [(5, PollOutcome.ok "Completed")]⟩)
        (fun j => j == "a")).length = (["a", "b"] : List String).length
    ∧ ((run_jobs_concurrent 3600 0 ["a", "b"]
        (fun _ => ⟨SubmitOutcome.created "r", [(5, PollOutcome.ok "Completed")]⟩)
        (fun j => j == "a")).map JobEntry.job_id).count "a" = 1 := by
  have h := batch_complete_accounting 3600 0 ["a", "b"]
    (fun _ => ⟨SubmitOutcome.created "r", [(5, PollOutcome.ok "Completed")]⟩)
    (fun j => j == "a") (by decide) (by decide)
  exact ⟨h.1, by simpa using h.2 "a" (by simp)⟩

/-! ## Status tally (run_dq_rules.py: job_statuses, job_details, update_status)

job_statuses is a defaultdict(int): an association list from status name
to an integer count, where a missing key reads as 0.  job_details maps
each job id to its current status (the run id component plays no role in
the claim and is omitted).  The status_lock serialises update_status
calls, which the embedding reflects by applying one update per step. -/

/-- The job_statuses mapping: first matching key wins, missing keys read
as 0 (defaultdict int). -/
abbrev Counts := List (String × Int)

def lookupCount : Counts → String → Int
  | [], _ => 0
  | (k, v) :: t, s => if k = s then v else lookupCount t s

def setCount : Counts → String → Int → Counts
  | [], s, v => [(s, v)]
  | (k, w) :: t, s, v => if k = s then (s, v) :: t else (k, w) :: setCount t s v

def incrCount (m : Counts) (s : String) : Counts := setCount m s (lookupCount m s + 1)

def decrCount (m : Counts) (s : String) : Counts := setCount m s (lookupCount m s - 1)

/-- The sum of all bucket counts of the tally. -/
def sumCounts : Counts → Int
  | [] => 0
  | (_, v) :: t => v + sumCounts t

/-- The job_details mapping from job id to its current status. -/
abbrev Details := List (String × String)

def lookupDetail : Details → String → Option String
  | [], _ => none
  | (k, v) :: t, j => if k = j then some v else lookupDetail t j

def setDetail : Details → String → String → Details
  | [], j, v => [(j, v)]
  | (k, w) :: t, j, v => if k = j then (j, v) :: t else (k, w) :: setDetail t j v

def detailKeys (d : Details) : List String := d.map Prod.fst

/-- Number of jobs whose recorded status is s. -/
def countDetails (d : Details) (s : String) : Nat :=
  (d.filter (fun p => p.2 == s)).length

theorem lookupCount_setCount (m : Counts) (k : String) (v : Int) (s : String) :
    lookupCount (setCount m k v) s = if k = s then v else lookupCount m s := by
  induction m with
  | nil => simp [setCount, lookupCount]
  | cons p t ih =>
    obtain ⟨k0, w⟩ := p
    by_cases h : k0 = k
    · subst h
      simp only [setCount, if_pos rfl]
      by_cases h2 : k0 = s
      · subst h2; simp [lookupCount]
      · simp [lookupCount, h2]
    · simp only [setCount, if_neg h, lookupCount]
      by_cases h2 : k0 = s
      · have hks : ¬ k = s := fun hh => h (h2.trans hh.symm)
        simp [h2, hks]
      · simp [h2, ih]

theorem sumCounts_setCount (m : Counts) (k : String) (v : Int) :
    sumCounts (setCount m k v) = sumCounts m + v - lookupCount m k := by
  induction m with
  | nil => simp [setCount, sumCounts, lookupCount]
  | cons p t ih =>
    obtain ⟨k0, w⟩ := p
    by_cases h : k0 = k
    · subst h
      simp [setCount, sumCounts, lookupCount]
      omega
    · simp only [setCount, if_neg h, sumCounts, lookupCount, if_neg h, ih]
      ring

theorem lookupCount_incrCount (m : Counts) (k s : String) :
    lookupCount (incrCount m k) s
      = if k = s then lookupCount m k + 1 else lookupCount m s := by
  simp [incrCount, lookupCount_setCount]

theorem lookupCount_decrCount (m : Counts) (k s : String) :
    lookupCount (decrCount m k) s
      = if k = s then lookupCount m k - 1 else lookupCount m s := by
  simp [decrCount, lookupCount_setCount]

theorem sumCounts_incrCount (m : Counts) (k : String) :
    sumCounts (incrCount m k) = sumCounts m + 1 := by
  simp only [incrCount, sumCounts_setCount]
  ring

theorem sumCounts_decrCount (m : Counts) (k : String) :
    sumCounts (decrCount m k) = sumCounts m - 1 := by
  simp only [decrCount, sumCounts_setCount]
  ring

theorem lookupDetail_eq_none_iff (d : Details) (j : String) :
    lookupDetail d j = none ↔ j ∉ detailKeys d := by
  induction d with
  | nil => simp [lookupDetail, detailKeys]
  | cons p t ih =>
    obtain ⟨k, v⟩ := p
    by_cases h : k = j
    · subst h
      simp [lookupDetail, detailKeys]
    · simp only [lookupDetail, if_neg h, detailKeys, List.map_cons, List.mem_cons]
      rw [ih]
      simp only [detailKeys]
      constructor
      · intro hn hor
        rcases hor with hor | hor
        · exact h hor.symm
        · exact hn hor
      · intro hn hmem
        exact hn (Or.inr hmem)

theorem setDetail_absent (d : Details) (j v : String)
    (h : lookupDetail d j = none) : setDetail d j v = d ++ [(j, v)] := by
  induction d with
  | nil => simp [setDetail]
  | cons p t ih =>
    obtain ⟨k, w⟩ := p
    simp only [lookupDetail] at h
    by_cases hk : k = j
    · rw [if_pos hk] at h; cases h
    · rw [if_neg hk] at h
      simp [setDetail, hk, ih h]

theorem detailKeys_setDetail_present (d : Details) (j v old : String)
    (h : lookupDetail d j = some old) :
    detailKeys (setDetail d j v) = detailKeys d ∧ (setDetail d j v).length = d.length := by
  induction d with
  | nil => simp [lookupDetail] at h
  | cons p t ih =>
    obtain ⟨k, w⟩ := p
    simp only [lookupDetail] at h
    by_cases hk : k = j
    · subst hk
      simp [setDetail, detailKeys]
    · rw [if_neg hk] at h
      obtain ⟨ih1, ih2⟩ := ih h
      simp [setDetail, hk, detailKeys, ih1, ih2]
      simpa [detailKeys] using ih1

theorem countDetails_cons (k w s : String) (t : Details) :
    countDetails ((k, w) :: t) s = countDetails t s + (if w = s then 1 else 0) := by
  simp only [countDetails, List.filter_cons]
  by_cases h : w = s
  · simp [h]
  · simp [h]

theorem countDetails_append_single (d : Details) (j v s : String) :
    countDetails (d ++ [(j, v)]) s
      = countDetails d s + (if v = s then 1 else 0) := by
  induction d with
  | nil =>
    simp only [List.nil_append, countDetails_cons]
  | cons p t ih =>
    obtain ⟨k, w⟩ := p
    simp only [List.cons_append, countDetails_cons, ih]
    omega

theorem countDetails_setDetail_present (d : Details) (j v old s : String)
    (h : lookupDetail d j = some old) :
    countDetails (setDetail d j v) s + (if old = s then 1 else 0)
      = countDetails d s + (if v = s then 1 else 0) := by
  induction d with
  | nil => simp [lookupDetail] at h
  | cons p t ih =>
    obtain ⟨k, w⟩ := p
    simp only [lookupDetail] at h
    by_cases hk : k = j
    · rw [if_pos hk] at h
      injection h with h
      subst h
      simp only [setDetail, if_pos hk, countDetails_cons]
      omega
    · rw [if_neg hk] at h
      simp only [setDetail, if_neg hk, countDetails_cons]
      have := ih h
      omega

theorem countDetails_pos (d : Details) (j old : String)
    (h : lookupDetail d j = some old) : 1 ≤ countDetails d old := by
  induction d with
  | nil => simp [lookupDetail] at h
  | cons p t ih =>
    obtain ⟨k, w⟩ := p
    simp only [lookupDetail] at h
    by_cases hk : k = j
    · rw [if_pos hk] at h
      injection h with h
      subst h
      simp [countDetails_cons]
    · rw [if_neg hk] at h
      have := ih h
      rw [countDetails_cons]
      omega

/-- The shared tally: the job_statuses counter map and the job_details
map from job id to its current status. -/
structure Tally where
  counts : Counts
  details : Details
deriving DecidableEq

/-- Initial tally of run_jobs_concurrent: job_statuses holds NotSubmitted
with the number of jobs to run; job_details is empty. -/
def initTally (n : Nat) : Tally := ⟨[("NotSubmitted", (n : Int))], []⟩

/-- update_status (the tally mutation under status_lock; printing and the
run-id component are omitted).  initial_submission decrements
NotSubmitted and increments the new status; otherwise, when the job has a
recorded status, that old status is decremented — guarded by the check
that its count is present and positive — and the new one incremented;
a job with no previous record only increments the new status. -/
def update_status (t : Tally) (job newStatus : String)
    (initialSubmission : Bool) : Tally :=
  if initialSubmission then
    { counts := incrCount (decrCount t.counts "NotSubmitted") newStatus,
      details := setDetail t.details job newStatus }
  else
    match lookupDetail t.details job with
    | some oldStatus =>
      let c1 := if 0 < lookupCount t.counts oldStatus
                then decrCount t.counts oldStatus else t.counts
      { counts := incrCount c1 newStatus,
        details := setDetail t.details job newStatus }
    | none =>
      { counts := incrCount t.counts newStatus,
        details := setDetail t.details job newStatus }

/-- One update_status call as issued by a worker thread. -/
structure StatusOp where
  job : String
  newStatus : String
  initialSubmission : Bool
deriving DecidableEq

/-- Apply a serialised sequence of update_status calls (the status_lock
makes every interleaving equivalent to such a sequence). -/
def applyOps (t : Tally) : List StatusOp → Tally
  | [] => t
  | op :: rest => applyOps (update_status t op.job op.newStatus op.initialSubmission) rest

/-- The update sequences the program can issue: every op names a job of
the batch, and initial_submission is used exactly on the first update of
each job (process_job updates with initial_submission on its first
update_status call and never again). -/
def wfOps (jobs : List String) : Details → List StatusOp → Bool
  | _, [] => true
  | d, op :: rest =>
    jobs.contains op.job
    && (op.initialSubmission == (lookupDetail d op.job).isNone)
    && wfOps jobs (setDetail d op.job op.newStatus) rest

theorem update_status_details (t : Tally) (job ns : String) (b : Bool) :
    (update_status t job ns b).details = setDetail t.details job ns := by
  unfold update_status
  cases b
  · cases h : lookupDetail t.details job <;> simp [h]
  · simp

/-- The inductive invariant of the tally: the details map has one entry
per job (no duplicate keys, all keys drawn from the batch), and every
bucket count equals the number of jobs currently recorded with that
status, except that NotSubmitted additionally counts the jobs not yet
recorded at all; the bucket counts therefore sum to the batch size. -/
def TallyInv (jobs : List String) (t : Tally) : Prop :=
  (detailKeys t.details).Nodup
  ∧ detailKeys t.details ⊆ jobs
  ∧ t.details.length ≤ jobs.length
  ∧ sumCounts t.counts = (jobs.length : Int)
  ∧ ∀ s, lookupCount t.counts s
      = (countDetails t.details s : Int)
        + (if s = "NotSubmitted" then (jobs.length : Int) - t.details.length else 0)

theorem detailKeys_length (d : Details) : (detailKeys d).length = d.length := by
  simp [detailKeys]

theorem update_status_inv (jobs : List String) (t : Tally) (op : StatusOp)
    (hinv : TallyInv jobs t)
    (hjob : op.job ∈ jobs)
    (hinit : op.initialSubmission = (lookupDetail t.details op.job).isNone) :
    TallyInv jobs (update_status t op.job op.newStatus op.initialSubmission) := by
  obtain ⟨hnd, hsub, hlen, hsum, heq⟩ := hinv
  have hupd := update_status_details t op.job op.newStatus op.initialSubmission
  by_cases hb : op.initialSubmission = true
  · -- initial submission: the job has no recorded status yet
    have habs : lookupDetail t.details op.job = none := by
      rw [hb] at hinit
      cases hl : lookupDetail t.details op.job
      · rfl
      · rw [hl] at hinit; simp at hinit
    have hset := setDetail_absent t.details op.job op.newStatus habs
    have hnotmem : op.job ∉ detailKeys t.details :=
      (lookupDetail_eq_none_iff _ _).mp habs
    have hkeys : detailKeys (setDetail t.details op.job op.newStatus)
        = detailKeys t.details ++ [op.job] := by
      rw [hset]; simp [detailKeys]
    have hnd2 : (detailKeys t.details ++ [op.job]).Nodup := by
      rw [(List.perm_append_singleton _ _).nodup_iff, List.nodup_cons]
      exact ⟨hnotmem, hnd⟩
    have hsub2 : detailKeys t.details ++ [op.job] ⊆ jobs := by
      intro x hx
      rcases List.mem_append.mp hx with hx | hx
      · exact hsub hx
      · simp at hx; subst hx; exact hjob
    have hlen2 : (setDetail t.details op.job op.newStatus).length
        = t.details.length + 1 := by
      rw [hset]; simp
    have hlenle : t.details.length + 1 ≤ jobs.length := by
      have := (List.subperm_of_subset hnd2 hsub2).length_le
      simpa [detailKeys_length] using this
    have hupc : (update_status t op.job op.newStatus op.initialSubmission).counts
        = incrCount (decrCount t.counts "NotSubmitted") op.newStatus := by
      rw [hb]
      unfold update_status
      simp
    refine ⟨?_, ?_, ?_, ?_, ?_⟩
    · rw [hupd, hkeys]; exact hnd2
    · rw [hupd, hkeys]; exact hsub2
    · rw [hupd, hlen2]; exact hlenle
    · rw [hupc, sumCounts_incrCount, sumCounts_decrCount, hsum]; ring
    · intro s
      rw [hupc, hupd, hlen2, hset, countDetails_append_single]
      simp only [lookupCount_incrCount, lookupCount_decrCount, heq]
      clear hupc hupd hset hkeys hnd2 hsub2 hnd hsub hsum hb habs hnotmem hinit heq hjob hlen2
      split_ifs <;> (try subst_vars) <;> (try simp_all) <;> omega
  · -- subsequent update: the job already has a recorded status
    have hbf : op.initialSubmission = false := by
      cases hbb : op.initialSubmission
      · rfl
      · exact absurd hbb hb
    obtain ⟨old, hold⟩ : ∃ old, lookupDetail t.details op.job = some old := by
      cases hl : lookupDetail t.details op.job
      · rw [hl] at hinit; simp at hinit; exact absurd hinit hb
      · exact ⟨_, rfl⟩
    have hcdp := countDetails_pos t.details op.job old hold
    have hpos : 0 < lookupCount t.counts old := by
      rw [heq old]
      by_cases hno : old = "NotSubmitted"
      · rw [if_pos hno]; omega
      · rw [if_neg hno]; omega
    have hupc : (update_status t op.job op.newStatus op.initialSubmission).counts
        = incrCount (decrCount t.counts old) op.newStatus := by
      rw [hbf]
      unfold update_status
      simp [hold, hpos]
    obtain ⟨hkeys2, hlen2⟩ :=
      detailKeys_setDetail_present t.details op.job op.newStatus old hold
    refine ⟨?_, ?_, ?_, ?_, ?_⟩
    · rw [hupd, hkeys2]; exact hnd
    · rw [hupd, hkeys2]; exact hsub
    · rw [hupd, hlen2]; exact hlen
    · rw [hupc, sumCounts_incrCount, sumCounts_decrCount, hsum]; ring
    · intro s
      have hcd := countDetails_setDetail_present t.details op.job op.newStatus old s hold
      rw [hupc, hupd, hlen2]
      simp only [lookupCount_incrCount, lookupCount_decrCount, heq]
      clear hupc hupd hkeys2 hnd hsub hsum hb hbf hinit heq hjob hpos hold hlen2
      split_ifs at hcd ⊢ <;> (try subst_vars) <;> (try simp_all) <;> omega

theorem applyOps_inv (jobs : List String) (ops : List StatusOp) :
    ∀ t : Tally, TallyInv jobs t → wfOps jobs t.details ops = true →
      TallyInv jobs (applyOps t ops) := by
  induction ops with
  | nil =>
    intro t h _
    exact h
  | cons op rest ih =>
    intro t hinv hwf
    simp only [wfOps, Bool.and_eq_true] at hwf
    obtain ⟨⟨hjob, hinit⟩, hrest⟩ := hwf
    have hjob2 : op.job ∈ jobs := by simpa using hjob
    have hinit2 : op.initialSubmission = (lookupDetail t.details op.job).isNone := by
      simpa using hinit
    have hnext := update_status_inv jobs t op hinv hjob2 hinit2
    simp only [applyOps]
    apply ih _ hnext
    rw [update_status_details]
    exact hrest

/-- Claim C5.  For every serialised sequence of update_status calls the
program can issue (each applied as one atomic step under status_lock —
the decrement and increment of one call are never observable apart), the
tally satisfies, at every observation point: the bucket counts sum to the
number of jobs submitted in the batch; the details map records at most
one bucket per job; and every bucket count equals the number of jobs
currently in that bucket (NotSubmitted also counting the jobs that have
not been submitted yet), so each job contributes to exactly one bucket.
Every prefix of a well-formed sequence is well formed, so this covers
every intermediate observation point as well. -/
theorem tally_sum_invariant (jobs : List String) (ops : List StatusOp)
    (hwf : wfOps jobs [] ops = true) :
    sumCounts (applyOps (initTally jobs.length) ops).counts = (jobs.length : Int)
    ∧ (detailKeys (applyOps (initTally jobs.length) ops).details).Nodup
    ∧ ∀ s, lookupCount (applyOps (initTally jobs.length) ops).counts s
        = (countDetails (applyOps (initTally jobs.length) ops).details s : Int)
          + (if s = "NotSubmitted"
              then (jobs.length : Int) - (applyOps (initTally jobs.length) ops).details.length
              else 0) := by
  have hinit : TallyInv jobs (initTally jobs.length) := by
    refine ⟨?_, ?_, ?_, ?_, ?_⟩
    · simp [initTally, detailKeys]
    · simp [initTally, detailKeys]
    · simp [initTally]
    · simp [initTally, sumCounts]
    · intro s
      by_cases h : s = "NotSubmitted"
      · simp [initTally, lookupCount, countDetails, h]
      · simp [initTally, lookupCount, countDetails, h, Ne.symm h]
  have h := applyOps_inv jobs ops (initTally jobs.length) hinit hwf
  obtain ⟨h1, h2, h3, h4, h5⟩ := h
  exact ⟨h4, h1, h5⟩

/-- Witness for tally_sum_invariant: two jobs, the first submitted and
then moved to Running, the second submitted. -/
theorem tally_sum_invariant_witness :
    sumCounts (applyOps (initTally (["j1", "j2"] : List String).length)
        [⟨"j1", "Submitting", true⟩, ⟨"j1", "Running", false⟩,
         ⟨"j2", "Submitting", true⟩]).counts
      = (((["j1", "j2"] : List String).length : Nat) : Int)
    ∧ lookupCount (applyOps (initTally (["j1", "j2"] : List String).length)
        [⟨"j1", "Submitting", true⟩, ⟨"j1", "Running", false⟩,
         ⟨"j2", "Submitting", true⟩]).counts "Running"
      = ((countDetails (applyOps (initTally (["j1", "j2"] : List String).length)
            [⟨"j1", "Submitting", true⟩, ⟨"j1", "Running", false⟩,
             ⟨"j2", "Submitting", true⟩]).details "Running" : Nat) : Int)
        + (if "Running" = "NotSubmitted"
            then (((["j1", "j2"] : List String).length : Nat) : Int)
              - (applyOps (initTally (["j1", "j2"] : List String).length)
                  [⟨"j1", "Submitting", true⟩, ⟨"j1", "Running", false⟩,
                   ⟨"j2", "Submitting", true⟩]).details.length
            else 0) := by
  have h := tally_sum_invariant ["j1", "j2"]
    [⟨"j1", "Submitting", true⟩, ⟨"j1", "Running", false⟩,
     ⟨"j2", "Submitting", true⟩] (by decide)
  exact ⟨h.1, h.2.2 "Running"⟩

end Guru
